import Mathlib

/-!
Shallow embedding of the multi-attempt answer generation and consensus
engine from `src/src/components/TDSExamHelper.jsx` (namespace `TDS`) and
its sibling variant `src/src/main.jsx` (namespace `MainJsx`).

Strings are modelled as `String` / `List Char`; the JavaScript regexes
`/\*\*FINAL ANSWER:\*\*\s*(.+?)(?=\n\n|Confidence:|$)/is` and
`/Confidence:\s*(.+?)(?=\n|$)/i` are embedded as executable
character-level matchers reproducing the backtracking semantics of a
leftmost match: at each candidate position the case-insensitive literal
is matched, then `\s*` greedily (with backtracking), then the lazy
group `(.+?)` grows one character at a time until the zero-width
lookahead holds.  `JavaScript`'s ASCII case folding and whitespace class
are modelled for the ASCII range (all inputs in this development are
ASCII).
-/

/-- ASCII lower-casing of one character: models the effect of
`String.prototype.toLowerCase` and of the regex `i` flag on the ASCII
inputs used here. -/
def lcChar (c : Char) : Char :=
  if 'A' ≤ c ∧ c ≤ 'Z' then Char.ofNat (c.toNat + 32) else c

/-- The JavaScript whitespace class `\s` restricted to its ASCII members
(space, tab, line feed, carriage return, vertical tab, form feed). -/
def isWs (c : Char) : Bool :=
  c == ' ' || c == '\t' || c == '\n' || c == '\r' || c == '\x0b' || c == '\x0c'

/-- `String.prototype.trim`: drop leading and trailing whitespace. -/
def trimChars (s : List Char) : List Char :=
  ((s.dropWhile isWs).reverse.dropWhile isWs).reverse

/-- `trim` on `String`. -/
def trimS (s : String) : String :=
  ⟨trimChars s.data⟩

/-- Case-insensitive match of the literal `pat` (given lower-cased) at the
head of `s`. -/
def ciPrefixAt (pat : List Char) (s : List Char) : Bool :=
  match pat, s with
  | [], _ => true
  | _ :: _, [] => false
  | p :: ps, c :: cs => (lcChar c == p) && ciPrefixAt ps cs

/-- Case-insensitive occurrence of the literal `pat` anywhere in `s`. -/
def ciOccurs (pat : List Char) : List Char → Bool
  | [] => ciPrefixAt pat []
  | c :: cs => ciPrefixAt pat (c :: cs) || ciOccurs pat cs

/-- The lazy group `(.+?)` followed by a zero-width lookahead: capture the
shortest non-empty prefix of `s` made of `dotOk` characters such that
`look` holds at the remaining suffix.  `none` when no such prefix exists. -/
def lazyCap (dotOk : Char → Bool) (look : List Char → Bool) : List Char → Option (List Char)
  | [] => none
  | c :: cs =>
    if dotOk c then
      if look cs then some [c]
      else
        match lazyCap dotOk look cs with
        | some cap => some (c :: cap)
        | none => none
    else none

/-- `\s*(.+?)(?=look)`: the greedy `\s*` consumes as much whitespace as
possible, backtracking (shorter `\s*`) when the rest of the pattern fails. -/
def wsCap (dotOk : Char → Bool) (look : List Char → Bool) : List Char → Option (List Char)
  | [] => none
  | c :: cs =>
    if isWs c then
      match wsCap dotOk look cs with
      | some cap => some cap
      | none => lazyCap dotOk look (c :: cs)
    else lazyCap dotOk look (c :: cs)

/-- Leftmost match of `lit` (case-insensitive) followed by
`\s*(.+?)(?=look)`: returns `(text before the match index, captured group)`,
or `none` when the whole pattern matches nowhere.  This is
`text.match(regex)` with `match.index` and `match[1]`. -/
def scanFor (lit : List Char) (dotOk : Char → Bool) (look : List Char → Bool) :
    List Char → Option (List Char × List Char)
  | [] => none
  | c :: cs =>
    if ciPrefixAt lit (c :: cs) then
      match wsCap dotOk look (List.drop lit.length (c :: cs)) with
      | some cap => some ([], cap)
      | none => Option.map (fun pc => (c :: pc.1, pc.2)) (scanFor lit dotOk look cs)
    else Option.map (fun pc => (c :: pc.1, pc.2)) (scanFor lit dotOk look cs)

/-- The literal of the final-answer regex, lower-cased. -/
def litFinal : List Char := "**final answer:**".data

/-- The literal of the confidence regex, lower-cased (also used by the
lookahead alternative `Confidence:` of the final-answer regex, which is
case-insensitive because the `i` flag applies to the whole pattern). -/
def litConf : List Char := "confidence:".data

/-- Dot of the final-answer regex: the `s` flag makes `.` match any
character, newlines included. -/
def dotFinal (_ : Char) : Bool := true

/-- Lookahead `(?=\n\n|Confidence:|$)` of the final-answer regex. -/
def lookFinal (s : List Char) : Bool :=
  (match s with
   | '\n' :: '\n' :: _ => true
   | _ => false) || ciPrefixAt litConf s || s.isEmpty

/-- Dot of the confidence regex: no `s` flag, so `.` matches anything but
a line feed. -/
def dotConf (c : Char) : Bool := !(c == '\n')

/-- Lookahead `(?=\n|$)` of the confidence regex. -/
def lookConf (s : List Char) : Bool :=
  match s with
  | [] => true
  | c :: _ => c == '\n'

/-- `ParsedAnswer` record returned by `parseAnswer`
(`TDSExamHelper.jsx` lines 94-110 and `main.jsx` lines 102-117, which are
behaviourally identical). -/
structure ParsedAnswer where
  analysis : String
  answer : String
  confidence : String
  fullText : String
deriving DecidableEq, Repr

/-- `parseAnswer(text)`: on empty input JavaScript returns
`{analysis:'', answer:'', confidence:''}` (the absent `fullText` is
modelled as `""`); otherwise it matches the two regexes, takes
`analysis` as the text before the final-answer match index (the whole
text when there is no match), and trims the captured groups. -/
def parseAnswer (text : String) : ParsedAnswer :=
  if text = "" then ⟨"", "", "", ""⟩
  else
    let cs := text.data
    let fm := scanFor litFinal dotFinal lookFinal cs
    let cm := scanFor litConf dotConf lookConf cs
    { analysis :=
        ⟨trimChars (match fm with
          | some pc => pc.1
          | none => cs)⟩
      answer :=
        match fm with
        | some pc => ⟨trimChars pc.2⟩
        | none => ""
      confidence :=
        match cm with
        | some pc => ⟨trimChars pc.2⟩
        | none => ""
      fullText := text }

/-- One attempt record `{ attemptNum, response, parsed }` pushed by the
submit loop. -/
structure Attempt where
  attemptNum : Nat
  response : String
  parsed : ParsedAnswer
deriving DecidableEq, Repr

/-- Outcome of the attempt loop inside `handleSubmit`'s `try` block:
the final value of the `attempts` state, the successive arguments of the
`setAttempts([...results])` calls made inside the loop (in order), the
attempt indices actually sent to the model client, and the error thrown
by the client, if any. -/
structure RunOutcome where
  attempts : List Attempt
  published : List (List Attempt)
  calls : List Nat
  errMsg : Option String
deriving DecidableEq, Repr

/-- The model client boundary: `callAPI(attemptNum)` either returns the
response text or throws an error carrying a message. -/
def ModelClient : Type := Nat → Except String String

/-- The `for (let i = 1; i <= numAttempts; i++)` loop of `handleSubmit`:
invoke the client, parse, push the attempt, publish the updated list;
a thrown error aborts the loop at once, keeping the attempts collected
so far. -/
def runIndices (client : ModelClient) : List Nat → List Attempt → RunOutcome
  | [], acc => ⟨acc, [], [], none⟩
  | i :: rest, acc =>
    match client i with
    | .error e => ⟨acc, [], [i], some e⟩
    | .ok txt =>
      let acc' := acc ++ [⟨i, txt, parseAnswer txt⟩]
      let r := runIndices client rest acc'
      ⟨r.attempts, acc' :: r.published, i :: r.calls, r.errMsg⟩

/-- Observable outcome of one `handleSubmit()` call: the final `attempts`
state, the final `error` state, every `setAttempts` call made during the
run (the leading `[]` is the `setAttempts([])` clearing the previous
run), and the attempt indices sent to the client. -/
structure SubmitOutcome where
  attempts : List Attempt
  error : String
  published : List (List Attempt)
  calls : List Nat
deriving DecidableEq, Repr

/-- `ConsensusResult` `{ answer, agreement, total, isConsensus }`;
`answer` is the JavaScript `best` / `consensusAnswer` variable, `null`
until some group is selected. -/
structure ConsensusResult where
  answer : Option Attempt
  agreement : Nat
  total : Nat
  isConsensus : Bool
deriving DecidableEq, Repr

/-- `counts[key] = counts[key] ? [...counts[key], a] : [a]`: append `a`
to the group of `key` in the insertion-ordered association list, adding
a new group at the end when the key is fresh. -/
def groupInsert (m : List (String × List Attempt)) (key : String) (a : Attempt) :
    List (String × List Attempt) :=
  match m with
  | [] => [(key, [a])]
  | (k, g) :: rest =>
    if k = key then (k, g ++ [a]) :: rest else (k, g) :: groupInsert rest key a

/-- Value of a canonical decimal key. -/
def digitsToNat (s : List Char) : Nat :=
  s.foldl (fun n c => n * 10 + (c.toNat - 48)) 0

/-- JavaScript array-index property keys (canonical decimal strings below
`2^32 - 1`): such keys are enumerated first, in ascending numeric order,
by `Object.values`. -/
def isArrayIndexKey (s : List Char) : Bool :=
  match s with
  | [] => false
  | c :: cs =>
    c.isDigit && cs.all Char.isDigit && (!(c == '0') || cs.isEmpty) &&
      digitsToNat (c :: cs) < 4294967295

/-- `Object.values(counts)`: array-index keys first in ascending numeric
order, then the remaining string keys in insertion order. -/
def jsObjectValues (m : List (String × List Attempt)) : List (List Attempt) :=
  (List.insertionSort
      (fun p q : String × List Attempt => digitsToNat p.1.data ≤ digitsToNat q.1.data)
      (m.filter (fun p => isArrayIndexKey p.1.data)) ++
    m.filter (fun p => !isArrayIndexKey p.1.data)).map (fun p => p.2)

/-- The `for (const group of Object.values(counts))` scan: keep the first
group whose size strictly exceeds the current maximum; `best` starts as
`null` and `max` as `0`. -/
def bestGroup (gs : List (List Attempt)) : Option Attempt × Nat :=
  gs.foldl (fun bm g => if bm.2 < g.length then (g.head?, g.length) else bm) (none, 0)

namespace TDS

/-- Grouping key of `findConsensus` (`TDSExamHelper.jsx` line 144):
`a.parsed.answer.toLowerCase().slice(0, 100)` — note: no trimming. -/
def normKey (s : String) : String :=
  ⟨(s.data.map lcChar).take 100⟩

/-- `findConsensus()` of `TDSExamHelper.jsx` lines 140-161, as a function
of the `attempts` state.  `Math.ceil(len / 2)` is `(len + 1) / 2` in
natural-number arithmetic. -/
def findConsensus (attempts : List Attempt) : Option ConsensusResult :=
  if attempts.length = 0 then none
  else
    let counts := attempts.foldl (fun m a => groupInsert m (normKey a.parsed.answer) a) []
    let bm := bestGroup (jsObjectValues counts)
    some ⟨bm.1, bm.2, attempts.length, decide ((attempts.length + 1) / 2 ≤ bm.2)⟩

/-- `handleSubmit()` of `TDSExamHelper.jsx` lines 112-138, as a function
of the model client, the previous `attempts` state, the `question` state
and the `numAttempts` state.  An empty-after-trim question sets the
error and returns before touching `attempts`; otherwise the error is
cleared, the attempt list is cleared (the leading `[]` in `published`),
and the loop runs; a thrown error lands verbatim in the `error` state. -/
def handleSubmit (client : ModelClient) (prevAttempts : List Attempt)
    (question : String) (numAttempts : Nat) : SubmitOutcome :=
  if trimS question = "" then
    ⟨prevAttempts, "Please enter a question", [], []⟩
  else
    let r := runIndices client (List.range' 1 numAttempts) []
    ⟨r.attempts,
      (match r.errMsg with
       | some e => e
       | none => ""),
      [] :: r.published, r.calls⟩

end TDS

namespace MainJsx

/-- Grouping key of `findConsensusAnswer` (`main.jsx` line 163):
`(answer || '').toLowerCase().trim().substring(0, 200)` — trimmed,
unlike the `TDS` variant. -/
def normKey (s : String) : String :=
  ⟨(trimChars (s.data.map lcChar)).take 200⟩

/-- `findConsensusAnswer()` of `main.jsx` lines 158-184.  Unlike
`TDS.findConsensus`, attempts whose normalized key is empty are skipped
(`if (!normalized) return;`) and never form a group. -/
def findConsensusAnswer (attempts : List Attempt) : Option ConsensusResult :=
  if attempts.length = 0 then none
  else
    let counts := attempts.foldl
      (fun m a =>
        let nk := normKey a.parsed.answer
        if nk = "" then m else groupInsert m nk a) []
    let bm := bestGroup (jsObjectValues counts)
    some ⟨bm.1, bm.2, attempts.length, decide ((attempts.length + 1) / 2 ≤ bm.2)⟩

/-- `handleSubmit()` of `main.jsx` lines 119-156: identical to
`TDS.handleSubmit` except that a thrown error is displayed as
`` `Error: ${err.message}` `` — prefixed, not verbatim. -/
def handleSubmit (client : ModelClient) (prevAttempts : List Attempt)
    (question : String) (numAttempts : Nat) : SubmitOutcome :=
  if trimS question = "" then
    ⟨prevAttempts, "Please enter a question", [], []⟩
  else
    let r := runIndices client (List.range' 1 numAttempts) []
    ⟨r.attempts,
      (match r.errMsg with
       | some e => "Error: " ++ e
       | none => ""),
      [] :: r.published, r.calls⟩

end MainJsx

/-- Response text of a successful client call (`""` on the error branch,
which is only used under a success hypothesis). -/
def okText (r : Except String String) : String :=
  match r with
  | .ok t => t
  | .error _ => ""

/-- The attempt record produced at index `i` when the client succeeds. -/
def attemptOf (client : ModelClient) (i : Nat) : Attempt :=
  ⟨i, okText (client i), parseAnswer (okText (client i))⟩

/-- The sequence of `setAttempts` snapshots published by a fully
successful loop over `idxs`, starting from the collected list `acc`. -/
def pubsOf (client : ModelClient) (acc : List Attempt) : List Nat → List (List Attempt)
  | [] => []
  | i :: rest =>
    (acc ++ [attemptOf client i]) :: pubsOf client (acc ++ [attemptOf client i]) rest

/-- An attempt whose parsed answer is the given string (used as concrete
input to the aggregators). -/
def mkAtt (i : Nat) (ans : String) : Attempt :=
  ⟨i, ans, ⟨"", ans, "", ans⟩⟩

/-- The four attempts of the spec's consensus example. -/
def exParis : List Attempt :=
  [mkAtt 1 "Paris", mkAtt 2 "paris ", mkAtt 3 "London", mkAtt 4 "Paris"]

/-- A model client that always succeeds. -/
def okClient : ModelClient := fun _ => .ok "**FINAL ANSWER:** 42"

/-- A model client that succeeds on attempt 1 and throws `"boom"` from
attempt 2 on. -/
def failClient : ModelClient := fun i => if i = 1 then .ok "ok text" else .error "boom"

/-- Total number of attempts stored in a grouping map. -/
def sumSizes : List (String × List Attempt) → Nat
  | [] => 0
  | p :: rest => p.2.length + sumSizes rest

/-- The own property names of `Object.prototype`: on an object literal
with no own property named `key`, `counts[key]` finds the inherited
member for exactly these keys, and every one of those members (functions
and the `__proto__` accessor's result) is truthy. -/
def objectProtoKeys : List String :=
  ["constructor", "hasOwnProperty", "isPrototypeOf", "propertyIsEnumerable",
   "toLocaleString", "toString", "valueOf", "__defineGetter__", "__defineSetter__",
   "__lookupGetter__", "__lookupSetter__", "__proto__"]

/-- The error thrown when `[...counts[key], a]` spreads a truthy
inherited `Object.prototype` member, which is not iterable. -/
def typeErrorMsg : String := "TypeError: counts[key] is not iterable"

/-- `counts[key] = counts[key] ? [...counts[key], a] : [a]` including the
prototype chain of the object literal `counts`: an own property (a key
already in the map) is a non-empty array, so the spread appends to it;
a key with no own property but naming an `Object.prototype` member reads
a truthy non-iterable value and the spread throws a `TypeError`; any
other absent key reads `undefined` (falsy) and a fresh group is stored. -/
def groupInsertJS (m : List (String × List Attempt)) (key : String) (a : Attempt) :
    Except String (List (String × List Attempt)) :=
  match m with
  | [] =>
    if key ∈ objectProtoKeys then .error typeErrorMsg
    else .ok [(key, [a])]
  | (k, g) :: rest =>
    if k = key then .ok ((k, g ++ [a]) :: rest)
    else (groupInsertJS rest key a).map (fun m' => (k, g) :: m')

/-- The grouping loop of `findConsensus` with the prototype-chain
semantics of `groupInsertJS`; a thrown `TypeError` aborts it. -/
def buildCountsJS (key : Attempt → String) :
    List Attempt → List (String × List Attempt) →
      Except String (List (String × List Attempt))
  | [], m => .ok m
  | a :: rest, m =>
    match groupInsertJS m (key a) a with
    | .error e => .error e
    | .ok m' => buildCountsJS key rest m'

namespace TDS

/-- `findConsensus()` of `TDSExamHelper.jsx` lines 140-161 with the
faithful `counts[key]` lookup: `.error` models the `TypeError` escaping
the function (there is no `try`/`catch` around it), `.ok none` the
`null` result on an empty attempt list. -/
def findConsensusJS (attempts : List Attempt) : Except String (Option ConsensusResult) :=
  if attempts.length = 0 then .ok none
  else
    match buildCountsJS (fun a => normKey a.parsed.answer) attempts [] with
    | .error e => .error e
    | .ok counts =>
      let bm := bestGroup (jsObjectValues counts)
      .ok (some ⟨bm.1, bm.2, attempts.length, decide ((attempts.length + 1) / 2 ≤ bm.2)⟩)

end TDS

/-! ## Lemmas about the embedded regex matcher -/

theorem ciOccurs_of_ciPrefixAt {pat s : List Char} (h : ciPrefixAt pat s = true) :
    ciOccurs pat s = true := by
  cases s with
  | nil => simpa [ciOccurs] using h
  | cons c cs => simp [ciOccurs, h]

theorem ciOccurs_cons {pat : List Char} (c : Char) {cs : List Char}
    (h : ciOccurs pat cs = true) : ciOccurs pat (c :: cs) = true := by
  simp [ciOccurs, h]

theorem ciOccurs_of_ciPrefixAt_append :
    ∀ (x y s : List Char), ciPrefixAt (x ++ y) s = true → ciOccurs y s = true
  | [], y, s, h => ciOccurs_of_ciPrefixAt h
  | p :: ps, y, s, h => by
    cases s with
    | nil => simp [ciPrefixAt] at h
    | cons c cs =>
      simp only [List.cons_append, ciPrefixAt, Bool.and_eq_true] at h
      exact ciOccurs_cons c (ciOccurs_of_ciPrefixAt_append ps y cs h.2)

theorem ciPrefixAt_of_ciPrefixAt_append :
    ∀ (y z s : List Char), ciPrefixAt (y ++ z) s = true → ciPrefixAt y s = true
  | [], _, _, _ => rfl
  | p :: ps, z, s, h => by
    cases s with
    | nil => simp [ciPrefixAt] at h
    | cons c cs =>
      simp only [List.cons_append, ciPrefixAt, Bool.and_eq_true] at h
      simp [ciPrefixAt, h.1, ciPrefixAt_of_ciPrefixAt_append ps z cs h.2]

theorem ciOccurs_mono {pat pat2 : List Char}
    (hp : ∀ s, ciPrefixAt pat s = true → ciOccurs pat2 s = true) :
    ∀ s, ciOccurs pat s = true → ciOccurs pat2 s = true := by
  intro s
  induction s with
  | nil => intro h; exact hp [] (by simpa [ciOccurs] using h)
  | cons c cs ih =>
    intro h
    simp only [ciOccurs, Bool.or_eq_true] at h
    rcases h with h | h
    · exact hp _ h
    · exact ciOccurs_cons c (ih h)

/-- An occurrence of the full bold marker contains an occurrence of the
bare `FINAL ANSWER:` token. -/
theorem ciOccurs_inner_of_litFinal {s : List Char}
    (h : ciOccurs litFinal s = true) : ciOccurs "final answer:".data s = true := by
  have hsplit : litFinal = "**".data ++ ("final answer:".data ++ "**".data) := by decide
  have step1 : ∀ u, ciPrefixAt litFinal u = true →
      ciOccurs ("final answer:".data ++ "**".data) u = true := by
    intro u hu
    rw [hsplit] at hu
    exact ciOccurs_of_ciPrefixAt_append "**".data _ u hu
  have h1 : ciOccurs ("final answer:".data ++ "**".data) s = true :=
    ciOccurs_mono step1 s h
  have step2 : ∀ u, ciPrefixAt ("final answer:".data ++ "**".data) u = true →
      ciOccurs "final answer:".data u = true := by
    intro u hu
    exact ciOccurs_of_ciPrefixAt (ciPrefixAt_of_ciPrefixAt_append _ "**".data u hu)
  exact ciOccurs_mono step2 s h1

theorem scanFor_eq_none {lit : List Char} (dotOk : Char → Bool) (look : List Char → Bool) :
    ∀ {s : List Char}, ciOccurs lit s = false → scanFor lit dotOk look s = none := by
  intro s
  induction s with
  | nil => intro _; rfl
  | cons c cs ih =>
    intro h
    simp only [ciOccurs, Bool.or_eq_false_iff] at h
    simp [scanFor, h.1, ih h.2]

/-- When the bold final-answer marker does not occur, the match is empty:
the answer is `""` and the analysis is the whole trimmed text. -/
theorem parseAnswer_no_bold_marker (t : String) (h : ciOccurs litFinal t.data = false) :
    (parseAnswer t).answer = "" ∧ (parseAnswer t).analysis = trimS t := by
  by_cases h0 : t = ""
  · subst h0; exact ⟨rfl, by decide⟩
  · simp [parseAnswer, h0, scanFor_eq_none dotFinal lookFinal h, trimS]

/-- When `Confidence:` does not occur (case-insensitively), the confidence
field is empty. -/
theorem parseAnswer_no_conf_marker (t : String) (h : ciOccurs litConf t.data = false) :
    (parseAnswer t).confidence = "" := by
  by_cases h0 : t = ""
  · subst h0; rfl
  · simp [parseAnswer, h0, scanFor_eq_none dotConf lookConf h]

/-! ## Claim theorems for the Response Parser -/

/-- C4: parsing the raw text
`"Some reasoning.\n\n**FINAL ANSWER:** 42\nConfidence: High"` yields
analysis `"Some reasoning."`, answer `"42"`, confidence `"High"`, and
`fullText` equal to the original raw text unmodified. -/
theorem claim_C4 :
    parseAnswer "Some reasoning.\n\n**FINAL ANSWER:** 42\nConfidence: High" =
      ⟨"Some reasoning.", "42", "High",
       "Some reasoning.\n\n**FINAL ANSWER:** 42\nConfidence: High"⟩ := by
  decide

/-- C6 counterexample: the raw text `"FINAL ANSWER: 42"` contains the
`FINAL ANSWER:` marker (without the surrounding `**`) followed by
content, yet the parser extracts an empty answer, because its regex
requires the literal `**FINAL ANSWER:**` with the bold markers. -/
theorem claim_C6_counterexample :
    ciOccurs "final answer:".data "FINAL ANSWER: 42".data = true ∧
    (parseAnswer "FINAL ANSWER: 42").answer = "" := by
  decide

/-- C6 amended: the parser anchors on the first case-insensitive
occurrence of the literal `**FINAL ANSWER:**` with the surrounding bold
markers required (when that bold marker is absent the answer is empty);
when it is present, leading whitespace after the marker is skipped (even
a blank line) and the answer is the following text captured up to the
first double line-break, the case-insensitive token `Confidence:`, or
the end of the string — whichever comes first — then trimmed. -/
theorem claim_C6 :
    (∀ t : String, ciOccurs litFinal t.data = false → (parseAnswer t).answer = "") ∧
    (parseAnswer "Reasoning **FINAL ANSWER:** 42\n\nExtra").answer = "42" ∧
    (parseAnswer "**final answer:** 7 Confidence: High").answer = "7" ∧
    (parseAnswer "**FINAL ANSWER:** 42").answer = "42" ∧
    (parseAnswer "**FINAL ANSWER:** \n\n42").answer = "42" :=
  ⟨fun t h => (parseAnswer_no_bold_marker t h).1, by decide, by decide, by decide, by decide⟩

/-- C6 witness: the general clause of `claim_C6` applied to a concrete
marker-free text. -/
theorem claim_C6_witness : (parseAnswer "plain text, no marker").answer = "" :=
  claim_C6.1 "plain text, no marker" (by decide)

/-- C7 counterexample: `"Hello\nConfidence: High"` contains no
`FINAL ANSWER:` marker, yet parsing yields confidence `"High"`, not
`""`: the confidence marker is matched independently of the final-answer
marker. -/
theorem claim_C7_counterexample :
    ciOccurs "final answer:".data "Hello\nConfidence: High".data = false ∧
    (parseAnswer "Hello\nConfidence: High").confidence = "High" := by
  decide

/-- C7 amended: for every raw text with no case-insensitive
`FINAL ANSWER:` marker, parsing never fails (the parser is a total
function) and yields an empty answer and an analysis equal to the entire
trimmed input; the confidence field is extracted independently by its
own regex (so it can be non-empty for such texts), and when the text
also has no case-insensitive `Confidence:` marker, it is empty. -/
theorem claim_C7 (t : String) (h : ciOccurs "final answer:".data t.data = false) :
    (parseAnswer t).answer = "" ∧ (parseAnswer t).analysis = trimS t ∧
    (ciOccurs litConf t.data = false → (parseAnswer t).confidence = "") := by
  have hb : ciOccurs litFinal t.data = false := by
    cases hx : ciOccurs litFinal t.data with
    | false => rfl
    | true => rw [ciOccurs_inner_of_litFinal hx] at h; cases h
  exact ⟨(parseAnswer_no_bold_marker t hb).1, (parseAnswer_no_bold_marker t hb).2,
    fun hc => parseAnswer_no_conf_marker t hc⟩

/-- C7 witness: `claim_C7` applied to a concrete marker-free text. -/
theorem claim_C7_witness :
    (parseAnswer "nothing here").answer = "" ∧
    (parseAnswer "nothing here").analysis = trimS "nothing here" ∧
    (ciOccurs litConf "nothing here".data = false →
      (parseAnswer "nothing here").confidence = "") :=
  claim_C7 "nothing here" (by decide)

/-! ## Lemmas about the attempt loop -/

/-- A loop over `idxs` whose every client call succeeds collects one
attempt per index, publishes after each one, and raises no error. -/
theorem runIndices_ok (client : ModelClient) :
    ∀ (idxs : List Nat) (acc : List Attempt),
      (∀ i ∈ idxs, ∃ t, client i = .ok t) →
      runIndices client idxs acc =
        ⟨acc ++ idxs.map (attemptOf client), pubsOf client acc idxs, idxs, none⟩ := by
  intro idxs
  induction idxs with
  | nil => intro acc _; simp [runIndices, pubsOf]
  | cons i rest ih =>
    intro acc h
    obtain ⟨t, ht⟩ := h i (by simp)
    have hrest : ∀ j ∈ rest, ∃ u, client j = .ok u := fun j hj => h j (by simp [hj])
    have ha : attemptOf client i = ⟨i, t, parseAnswer t⟩ := by
      simp [attemptOf, okText, ht]
    simp only [runIndices, ht, ih (acc ++ [⟨i, t, parseAnswer t⟩]) hrest, pubsOf, ha,
      List.map_cons]
    simp

/-- The published snapshots of a fully successful loop are the successive
non-empty prefixes of the produced attempt list, appended to `acc`. -/
theorem pubsOf_eq_prefixes (client : ModelClient) :
    ∀ (idxs : List Nat) (acc : List Attempt),
      pubsOf client acc idxs =
        (List.range idxs.length).map
          (fun k => acc ++ (idxs.map (attemptOf client)).take (k + 1)) := by
  intro idxs
  induction idxs with
  | nil => intro acc; simp [pubsOf]
  | cons i rest ih =>
    intro acc
    rw [pubsOf, ih]
    simp only [List.length_cons, List.range_succ_eq_map, List.map_cons, List.map_map,
      List.take_succ_cons, List.take_zero, List.cons.injEq, Function.comp]
    constructor
    · simp
    · exact List.map_congr_left fun k _ => by simp [List.take_succ_cons]

/-! ## Claim theorems for the Attempt Orchestrator -/

/-- C1: for `n ≥ 1` and a non-empty question, a run whose model client
succeeds on all calls produces exactly `n` attempts with `attemptNum`
values `1..n` in that order, no error, and publishes — after the initial
clearing `setAttempts([])` — the prefix of the first `k + 1` attempts
after each attempt `k + 1` completes, before the next attempt begins. -/
theorem claim_C1 (client : ModelClient) (prev : List Attempt) (q : String) (n : Nat)
    (_hn : 1 ≤ n) (hq : trimS q ≠ "") (hok : ∀ i, ∃ t, client i = .ok t) :
    (TDS.handleSubmit client prev q n).attempts.length = n ∧
    (TDS.handleSubmit client prev q n).attempts.map (fun a => a.attemptNum) =
      List.range' 1 n ∧
    (TDS.handleSubmit client prev q n).error = "" ∧
    (TDS.handleSubmit client prev q n).published =
      [] :: (List.range n).map
        (fun k => (TDS.handleSubmit client prev q n).attempts.take (k + 1)) := by
  have hrun := runIndices_ok client (List.range' 1 n) [] (fun i _ => hok i)
  simp only [TDS.handleSubmit, if_neg hq, hrun, pubsOf_eq_prefixes, List.nil_append,
    List.length_map, List.length_range', List.map_map]
  refine ⟨trivial, ?_, trivial, trivial⟩
  have hcomp : ((fun a : Attempt => a.attemptNum) ∘ attemptOf client) = fun i => i := rfl
  rw [hcomp]
  simp

/-- C1 witness: `claim_C1` at `n = 2` with an always-succeeding client. -/
theorem claim_C1_witness :
    (TDS.handleSubmit okClient [] "q" 2).attempts.length = 2 ∧
    (TDS.handleSubmit okClient [] "q" 2).attempts.map (fun a => a.attemptNum) =
      List.range' 1 2 ∧
    (TDS.handleSubmit okClient [] "q" 2).error = "" ∧
    (TDS.handleSubmit okClient [] "q" 2).published =
      [] :: (List.range 2).map
        (fun k => (TDS.handleSubmit okClient [] "q" 2).attempts.take (k + 1)) :=
  claim_C1 okClient [] "q" 2 (by decide) (by decide)
    (fun _ => ⟨"**FINAL ANSWER:** 42", rfl⟩)

/-- C3 counterexample: when the client throws `"boom"` on attempt 2,
`main.jsx` displays `"Error: boom"` — the message is prefixed, not shown
verbatim. -/
theorem claim_C3_counterexample :
    (MainJsx.handleSubmit failClient [] "q" 3).error = "Error: boom" ∧
    (MainJsx.handleSubmit failClient [] "q" 3).error ≠ "boom" := by
  decide

/-- C3 amended: if the model client fails on attempt 2 of a requested 3,
the run stops immediately with exactly 1 completed attempt preserved and
published, no attempt 3 is issued (the client is called only for indices
1 and 2), and the triggering error's message is displayed — verbatim in
`TDSExamHelper.jsx`, prefixed with `"Error: "` in `main.jsx`. -/
theorem claim_C3 (client : ModelClient) (prev : List Attempt) (q t e : String)
    (hq : trimS q ≠ "") (h1 : client 1 = .ok t) (h2 : client 2 = .error e) :
    TDS.handleSubmit client prev q 3 =
      ⟨[⟨1, t, parseAnswer t⟩], e, [[], [⟨1, t, parseAnswer t⟩]], [1, 2]⟩ ∧
    MainJsx.handleSubmit client prev q 3 =
      ⟨[⟨1, t, parseAnswer t⟩], "Error: " ++ e, [[], [⟨1, t, parseAnswer t⟩]], [1, 2]⟩ := by
  have hr : List.range' 1 3 = [1, 2, 3] := rfl
  constructor <;>
    simp [TDS.handleSubmit, MainJsx.handleSubmit, if_neg hq, hr, runIndices, h1, h2]

/-- C3 witness: `claim_C3` at a concrete client that succeeds on attempt
1 and throws `"boom"` afterwards. -/
theorem claim_C3_witness :
    TDS.handleSubmit failClient [] "q" 3 =
      ⟨[⟨1, "ok text", parseAnswer "ok text"⟩], "boom",
       [[], [⟨1, "ok text", parseAnswer "ok text"⟩]], [1, 2]⟩ ∧
    MainJsx.handleSubmit failClient [] "q" 3 =
      ⟨[⟨1, "ok text", parseAnswer "ok text"⟩], "Error: " ++ "boom",
       [[], [⟨1, "ok text", parseAnswer "ok text"⟩]], [1, 2]⟩ :=
  claim_C3 failClient [] "q" "ok text" "boom" (by decide) rfl rfl

/-- C5 counterexample: submitting a non-empty question with
`numAttempts = 0` is not rejected with a validation error — the error
state is `""` — and the previous attempt list is cleared rather than
left untouched by a rejection. -/
theorem claim_C5_counterexample :
    (TDS.handleSubmit okClient [mkAtt 7 "x"] "q" 0).error = "" ∧
    (TDS.handleSubmit okClient [mkAtt 7 "x"] "q" 0).attempts = [] := by
  decide

/-- C5 amended: an empty or whitespace-only question is rejected with the
validation error `"Please enter a question"` before any client call and
with zero attempts made (the previous attempt list untouched); but
`totalAttempts < 1` is not validated: the run proceeds, clears the
attempt list, performs zero client calls, and completes with no error. -/
theorem claim_C5 :
    (∀ (client : ModelClient) (prev : List Attempt) (q : String) (n : Nat),
        trimS q = "" →
        TDS.handleSubmit client prev q n = ⟨prev, "Please enter a question", [], []⟩) ∧
    (∀ (client : ModelClient) (prev : List Attempt) (q : String),
        trimS q ≠ "" →
        TDS.handleSubmit client prev q 0 = ⟨[], "", [[]], []⟩) := by
  constructor
  · intro client prev q n h
    simp [TDS.handleSubmit, if_pos h]
  · intro client prev q h
    simp [TDS.handleSubmit, if_neg h, runIndices]

/-- C5 witness: both clauses of `claim_C5` at concrete inputs. -/
theorem claim_C5_witness :
    TDS.handleSubmit okClient [mkAtt 7 "x"] "  " 3 =
      ⟨[mkAtt 7 "x"], "Please enter a question", [], []⟩ ∧
    TDS.handleSubmit okClient [mkAtt 7 "x"] "q" 0 = ⟨[], "", [[]], []⟩ :=
  ⟨claim_C5.1 okClient [mkAtt 7 "x"] "  " 3 (by decide),
   claim_C5.2 okClient [mkAtt 7 "x"] "q" (by decide)⟩

/-- C10: a validation failure (empty or whitespace-only question) leaves
the previous run's attempt list — and therefore the displayed consensus —
completely unchanged in both variants; only the error message is set, and
no `setAttempts` call is published.  The attempt list is cleared (the
leading `[]` snapshot) only when validation passes and a run starts. -/
theorem claim_C10 (client : ModelClient) (prev : List Attempt) (q : String) (n : Nat) :
    (trimS q = "" →
      TDS.handleSubmit client prev q n = ⟨prev, "Please enter a question", [], []⟩ ∧
      MainJsx.handleSubmit client prev q n = ⟨prev, "Please enter a question", [], []⟩ ∧
      TDS.findConsensus (TDS.handleSubmit client prev q n).attempts =
        TDS.findConsensus prev) ∧
    (trimS q ≠ "" →
      ∃ rest, (TDS.handleSubmit client prev q n).published = [] :: rest) := by
  constructor
  · intro h
    refine ⟨by simp [TDS.handleSubmit, if_pos h], by simp [MainJsx.handleSubmit, if_pos h], ?_⟩
    simp [TDS.handleSubmit, if_pos h]
  · intro h
    refine ⟨(runIndices client (List.range' 1 n) []).published, ?_⟩
    simp [TDS.handleSubmit, if_neg h]

/-- C10 witness: both clauses of `claim_C10` at concrete inputs. -/
theorem claim_C10_witness :
    (TDS.handleSubmit okClient [mkAtt 7 "x"] "" 2 =
        ⟨[mkAtt 7 "x"], "Please enter a question", [], []⟩ ∧
      MainJsx.handleSubmit okClient [mkAtt 7 "x"] "" 2 =
        ⟨[mkAtt 7 "x"], "Please enter a question", [], []⟩ ∧
      TDS.findConsensus (TDS.handleSubmit okClient [mkAtt 7 "x"] "" 2).attempts =
        TDS.findConsensus [mkAtt 7 "x"]) ∧
    (∃ rest, (TDS.handleSubmit okClient [] "q" 1).published = [] :: rest) :=
  ⟨(claim_C10 okClient [mkAtt 7 "x"] "" 2).1 (by decide),
   (claim_C10 okClient [] "q" 1).2 (by decide)⟩

/-! ## Lemmas about the Consensus Aggregator -/

theorem sumSizes_groupInsert (m : List (String × List Attempt)) (key : String) (a : Attempt) :
    sumSizes (groupInsert m key a) = sumSizes m + 1 := by
  induction m with
  | nil => simp [groupInsert, sumSizes]
  | cons p rest ih =>
    obtain ⟨k, g⟩ := p
    by_cases h : k = key <;> simp [groupInsert, h, sumSizes, ih] <;> omega

theorem length_le_sumSizes {g : List Attempt} :
    ∀ {m : List (String × List Attempt)} {k : String}, (k, g) ∈ m → g.length ≤ sumSizes m := by
  intro m
  induction m with
  | nil => intro k h; cases h
  | cons p rest ih =>
    intro k h
    rcases List.mem_cons.mp h with h | h
    · subst h; simp [sumSizes]
    · have := ih h
      simp [sumSizes]
      omega

theorem sumSizes_foldl (key : Attempt → String) :
    ∀ (l : List Attempt) (m : List (String × List Attempt)),
      sumSizes (l.foldl (fun m a => groupInsert m (key a) a) m) = sumSizes m + l.length := by
  intro l
  induction l with
  | nil => intro m; simp
  | cons a rest ih =>
    intro m
    simp only [List.foldl_cons, ih, sumSizes_groupInsert, List.length_cons]
    omega

theorem mem_jsObjectValues {g : List Attempt} {m : List (String × List Attempt)}
    (h : g ∈ jsObjectValues m) : ∃ p ∈ m, p.2 = g := by
  unfold jsObjectValues at h
  rw [List.mem_map] at h
  obtain ⟨p, hp, rfl⟩ := h
  rcases List.mem_append.mp hp with h | h
  · exact ⟨p, (List.mem_filter.mp ((List.mem_insertionSort _).mp h)).1, rfl⟩
  · exact ⟨p, (List.mem_filter.mp h).1, rfl⟩

theorem bestGroup_le (bound : Nat) :
    ∀ (gs : List (List Attempt)) (b : Option Attempt) (mx : Nat),
      mx ≤ bound → (∀ g ∈ gs, g.length ≤ bound) →
      (gs.foldl (fun bm g => if bm.2 < g.length then (g.head?, g.length) else bm) (b, mx)).2
        ≤ bound := by
  intro gs
  induction gs with
  | nil => intro b mx h _; simpa using h
  | cons g rest ih =>
    intro b mx hmx hall
    simp only [List.foldl_cons]
    by_cases h : mx < g.length
    · simp only [h, if_pos]
      exact ih g.head? g.length (hall g (by simp)) (fun g' hg' => hall g' (by simp [hg']))
    · simp only [h, if_neg, if_false]
      exact ih b mx hmx (fun g' hg' => hall g' (by simp [hg']))

/-- The association-list grouping model of `findConsensus` returns
`none` exactly on the empty list, and otherwise a result whose agreement
is at most the number of attempts supplied, with `isConsensus` deciding
`agreement ≥ ceil(total / 2)`. -/
theorem findConsensus_invariants (l : List Attempt) :
    (TDS.findConsensus l = none ↔ l = []) ∧
    (∀ r, TDS.findConsensus l = some r →
      r.agreement ≤ r.total ∧ r.total = l.length ∧
      (r.isConsensus = true ↔ (r.total + 1) / 2 ≤ r.agreement)) := by
  constructor
  · by_cases h : l.length = 0 <;>
      simp [TDS.findConsensus, h, List.length_eq_zero] <;>
      simp [List.length_eq_zero] at h <;> simp [h]
  · intro r hr
    by_cases h : l.length = 0
    · simp [TDS.findConsensus, h] at hr
    · simp only [TDS.findConsensus, h, if_false] at hr
      obtain rfl := Option.some_injective _ hr.symm
      refine ⟨?_, rfl, by simp⟩
      have hsum : sumSizes
          (l.foldl (fun m a => groupInsert m (TDS.normKey a.parsed.answer) a) []) =
          l.length := by
        simpa [sumSizes] using
          sumSizes_foldl (fun a => TDS.normKey a.parsed.answer) l []
      refine bestGroup_le l.length _ none 0 (Nat.zero_le _) (fun g hg => ?_)
      obtain ⟨p, hp, rfl⟩ := mem_jsObjectValues hg
      calc p.2.length ≤ sumSizes
            (l.foldl (fun m a => groupInsert m (TDS.normKey a.parsed.answer) a) []) :=
            length_le_sumSizes (by exact hp)
        _ = l.length := hsum

theorem foldl_groupInsert_empty_key :
    ∀ (l : List Attempt) (g : List Attempt),
      (∀ a ∈ l, TDS.normKey a.parsed.answer = "") →
      l.foldl (fun m a => groupInsert m (TDS.normKey a.parsed.answer) a) [("", g)] =
        [("", g ++ l)] := by
  intro l
  induction l with
  | nil => intro g _; simp
  | cons a rest ih =>
    intro g h
    have ha : TDS.normKey a.parsed.answer = "" := h a (by simp)
    have hstep : groupInsert [("", g)] "" a = [("", g ++ [a])] := by
      simp [groupInsert]
    rw [List.foldl_cons, ha, hstep, ih (g ++ [a]) (fun b hb => h b (by simp [hb]))]
    simp

theorem jsObjectValues_single_empty (l : List Attempt) :
    jsObjectValues [("", l)] = [l] := by
  simp [jsObjectValues, isArrayIndexKey, List.filter, List.insertionSort]

theorem foldl_skip_empty_key :
    ∀ (l : List Attempt) (m : List (String × List Attempt)),
      (∀ a ∈ l, MainJsx.normKey a.parsed.answer = "") →
      l.foldl (fun m a =>
        let nk := MainJsx.normKey a.parsed.answer
        if nk = "" then m else groupInsert m nk a) m = m := by
  intro l
  induction l with
  | nil => intro m _; rfl
  | cons a rest ih =>
    intro m h
    have ha : MainJsx.normKey a.parsed.answer = "" := h a (by simp)
    simp only [List.foldl_cons, ha, if_pos rfl]
    exact ih m (fun b hb => h b (by simp [hb]))

/-- C8 amended: in `TDSExamHelper.jsx`'s `findConsensus`, attempts whose
normalized answer is empty are grouped under the empty key and that
group can win the plurality and supply the consensus representative
(when every attempt normalizes to the empty key, the whole list is one
winning empty-key group with the first attempt as representative);
in `main.jsx`'s `findConsensusAnswer`, empty-normalized attempts are
skipped instead and can never win — with all-empty answers the result
has no representative and agreement 0. -/
theorem claim_C8 :
    (∀ l : List Attempt, l ≠ [] → (∀ a ∈ l, TDS.normKey a.parsed.answer = "") →
      TDS.findConsensus l = some ⟨l.head?, l.length, l.length, true⟩) ∧
    (∀ l : List Attempt, l ≠ [] → (∀ a ∈ l, MainJsx.normKey a.parsed.answer = "") →
      MainJsx.findConsensusAnswer l = some ⟨none, 0, l.length, false⟩) := by
  constructor
  · intro l hne h
    obtain ⟨a, rest, rfl⟩ : ∃ a rest, l = a :: rest := by
      cases l with
      | nil => exact absurd rfl hne
      | cons a rest => exact ⟨a, rest, rfl⟩
    have hlen : (a :: rest).length ≠ 0 := by simp
    have ha : TDS.normKey a.parsed.answer = "" := h a (by simp)
    have hfold : (a :: rest).foldl
        (fun m b => groupInsert m (TDS.normKey b.parsed.answer) b) [] =
        [("", a :: rest)] := by
      simp only [List.foldl_cons, ha, groupInsert]
      rw [foldl_groupInsert_empty_key rest [a] (fun b hb => h b (by simp [hb]))]
      simp
    simp only [TDS.findConsensus, hlen, if_false, hfold, jsObjectValues_single_empty]
    have hbest : bestGroup [a :: rest] = (some a, (a :: rest).length) := by
      simp [bestGroup]
    rw [hbest]
    simp only [List.length_cons]
    simp
    omega
  · intro l hne h
    obtain ⟨a, rest, rfl⟩ : ∃ a rest, l = a :: rest := by
      cases l with
      | nil => exact absurd rfl hne
      | cons a rest => exact ⟨a, rest, rfl⟩
    have hlen : (a :: rest).length ≠ 0 := by simp
    have hfold := foldl_skip_empty_key (a :: rest) [] h
    simp only [MainJsx.findConsensusAnswer, hlen, if_false, hfold]
    simp [jsObjectValues, bestGroup, List.insertionSort]
    omega

/-- C8 witness: both clauses of `claim_C8` at a concrete all-empty
attempt list. -/
theorem claim_C8_witness :
    TDS.findConsensus [mkAtt 1 "", mkAtt 2 "", mkAtt 3 ""] =
      some ⟨some (mkAtt 1 ""), 3, 3, true⟩ ∧
    MainJsx.findConsensusAnswer [mkAtt 1 "", mkAtt 2 "", mkAtt 3 ""] =
      some ⟨none, 0, 3, false⟩ :=
  ⟨claim_C8.1 [mkAtt 1 "", mkAtt 2 "", mkAtt 3 ""] (by decide) (by decide),
   claim_C8.2 [mkAtt 1 "", mkAtt 2 "", mkAtt 3 ""] (by decide) (by decide)⟩

/-- C8 counterexample: two attempts whose parsed answer is empty
dominate the run, yet `findConsensusAnswer` selects no representative
and reports agreement 0 — the empty-key group is not grouped and cannot
win there. -/
theorem claim_C8_counterexample :
    MainJsx.findConsensusAnswer [mkAtt 1 "", mkAtt 2 ""] =
      some ⟨none, 0, 2, false⟩ := by
  decide

/-- C2 counterexample: `findConsensus`'s normalization does not trim, so
`"Paris"` and `"paris "` get different keys — and in
`findConsensusAnswer`, which does trim, the example yields
`agreementCount = 3`, not 2. -/
theorem claim_C2_counterexample :
    TDS.normKey "Paris" ≠ TDS.normKey "paris " ∧
    MainJsx.findConsensusAnswer exParis = some ⟨some (mkAtt 1 "Paris"), 3, 4, true⟩ := by
  decide

/-- C2 amended: `findConsensus` normalizes by lower-casing and truncating
to a 100-character prefix without trimming, so on attempts with answers
`["Paris", "paris ", "London", "Paris"]` only the two exact `"Paris"`
occurrences share a key, giving `agreementCount = 2`, representative
answer `"Paris"` (its first occurrence) and `isConsensus = true`
(`2 ≥ ceil(4/2)`); `main.jsx`'s `findConsensusAnswer` additionally trims
(truncating to 200), merges all three Paris variants into one key, and
yields `agreementCount = 3` on the same input. -/
theorem claim_C2 :
    TDS.findConsensus exParis = some ⟨some (mkAtt 1 "Paris"), 2, 4, true⟩ ∧
    TDS.normKey "Paris" = "paris" ∧ TDS.normKey "paris " = "paris " ∧
    MainJsx.findConsensusAnswer exParis = some ⟨some (mkAtt 1 "Paris"), 3, 4, true⟩ ∧
    MainJsx.normKey "Paris" = MainJsx.normKey "paris " := by
  decide

/-- C9 counterexample: a single attempt whose parsed answer is
`"constructor"` normalizes to a key naming a truthy inherited
`Object.prototype` member, so `counts[key]` is truthy on first
encounter, the spread `[...counts[key], a]` throws a `TypeError`, and
`findConsensus` produces no `ConsensusResult` at all — refuting the
claim's universally quantified invariants. -/
theorem claim_C9_counterexample :
    TDS.findConsensusJS [mkAtt 1 "constructor"] = .error typeErrorMsg := by
  rfl

/-! ## The prototype-chain grouping and the corrected aggregator claim -/

theorem groupInsertJS_ok {key : String} (hk : key ∉ objectProtoKeys) :
    ∀ (m : List (String × List Attempt)) (a : Attempt),
      groupInsertJS m key a = .ok (groupInsert m key a) := by
  intro m
  induction m with
  | nil => intro a; simp [groupInsertJS, groupInsert, hk]
  | cons p rest ih =>
    intro a
    obtain ⟨k, g⟩ := p
    by_cases h : k = key <;> simp [groupInsertJS, groupInsert, h, ih, Except.map]

theorem groupInsertJS_proto {key : String} (hk : key ∈ objectProtoKeys) :
    ∀ (m : List (String × List Attempt)) (a : Attempt),
      (∀ p ∈ m, p.1 ≠ key) →
      groupInsertJS m key a = .error typeErrorMsg := by
  intro m
  induction m with
  | nil => intro a _; simp [groupInsertJS, hk]
  | cons p rest ih =>
    intro a h
    obtain ⟨k, g⟩ := p
    have hne : k ≠ key := h (k, g) (by simp)
    simp [groupInsertJS, hne, ih a (fun q hq => h q (by simp [hq])), Except.map]

theorem buildCountsJS_ok (key : Attempt → String) :
    ∀ (l : List Attempt) (m : List (String × List Attempt)),
      (∀ a ∈ l, key a ∉ objectProtoKeys) →
      buildCountsJS key l m = .ok (l.foldl (fun m a => groupInsert m (key a) a) m) := by
  intro l
  induction l with
  | nil => intro m _; rfl
  | cons a rest ih =>
    intro m h
    have ha : key a ∉ objectProtoKeys := h a (by simp)
    simp only [buildCountsJS, groupInsertJS_ok ha, List.foldl_cons]
    exact ih (groupInsert m (key a) a) (fun b hb => h b (by simp [hb]))

theorem groupInsert_key_mem :
    ∀ (m : List (String × List Attempt)) (k : String) (a : Attempt),
      ∀ p ∈ groupInsert m k a, p.1 = k ∨ ∃ q ∈ m, q.1 = p.1 := by
  intro m
  induction m with
  | nil => intro k a p hp; simp [groupInsert] at hp; simp [hp]
  | cons q rest ih =>
    intro k a p hp
    obtain ⟨k', g⟩ := q
    by_cases h : k' = k
    · simp only [groupInsert, if_pos h] at hp
      rcases List.mem_cons.mp hp with rfl | hp
      · exact Or.inl h
      · exact Or.inr ⟨p, by simp [hp], rfl⟩
    · simp only [groupInsert, if_neg h] at hp
      rcases List.mem_cons.mp hp with rfl | hp
      · exact Or.inr ⟨(k', g), by simp, rfl⟩
      · rcases ih k a p hp with h1 | ⟨q', hq', hq2⟩
        · exact Or.inl h1
        · exact Or.inr ⟨q', by simp [hq'], hq2⟩

theorem buildCountsJS_err (key : Attempt → String) :
    ∀ (l : List Attempt) (m : List (String × List Attempt)),
      (∀ p ∈ m, p.1 ∉ objectProtoKeys) →
      (∃ a ∈ l, key a ∈ objectProtoKeys) →
      buildCountsJS key l m = .error typeErrorMsg := by
  intro l
  induction l with
  | nil => intro m _ hex; simp at hex
  | cons a rest ih =>
    intro m hm hex
    by_cases ha : key a ∈ objectProtoKeys
    · have hfresh : ∀ p ∈ m, p.1 ≠ key a := fun p hp heq => hm p hp (heq ▸ ha)
      simp [buildCountsJS, groupInsertJS_proto ha m a hfresh]
    · have hstep := groupInsertJS_ok ha m a
      have hm' : ∀ p ∈ groupInsert m (key a) a, p.1 ∉ objectProtoKeys := by
        intro p hp
        rcases groupInsert_key_mem m (key a) a p hp with h1 | ⟨q, hq, hq2⟩
        · exact h1 ▸ ha
        · exact hq2 ▸ hm q hq
      have hex' : ∃ b ∈ rest, key b ∈ objectProtoKeys := by
        rcases hex with ⟨b, hb, hkb⟩
        rcases List.mem_cons.mp hb with rfl | hb
        · exact absurd hkb ha
        · exact ⟨b, hb, hkb⟩
      simp [buildCountsJS, hstep, ih (groupInsert m (key a) a) hm' hex']

theorem findConsensusJS_refines (l : List Attempt)
    (hsafe : ∀ a ∈ l, TDS.normKey a.parsed.answer ∉ objectProtoKeys) :
    TDS.findConsensusJS l = .ok (TDS.findConsensus l) := by
  by_cases h : l.length = 0
  · simp [TDS.findConsensusJS, TDS.findConsensus, h]
  · simp [TDS.findConsensusJS, TDS.findConsensus, h,
      buildCountsJS_ok (fun a => TDS.normKey a.parsed.answer) l [] hsafe]

/-- C9 corrected: aggregation returns `null` exactly when the attempt
list is empty, and — provided no attempt's normalized answer names an
`Object.prototype` member — the resulting `ConsensusResult` satisfies
`agreementCount ≤ totalAttempts` (with `0 ≤ agreementCount` trivially),
`totalAttempts` equals the number of attempts supplied, and
`isConsensus` holds iff `agreementCount ≥ ceil(totalAttempts / 2)`;
but when some attempt's normalized answer is `"constructor"`,
`"__proto__"` or another `Object.prototype` property name, the
`counts[key]` lookup finds a truthy inherited member, the spread throws
a `TypeError`, and no `ConsensusResult` is produced at all. -/
theorem claim_C9 (l : List Attempt) :
    ((∀ a ∈ l, TDS.normKey a.parsed.answer ∉ objectProtoKeys) →
      (TDS.findConsensusJS l = .ok none ↔ l = []) ∧
      (∀ r, TDS.findConsensusJS l = .ok (some r) →
        r.agreement ≤ r.total ∧ r.total = l.length ∧
        (r.isConsensus = true ↔ (r.total + 1) / 2 ≤ r.agreement))) ∧
    ((∃ a ∈ l, TDS.normKey a.parsed.answer ∈ objectProtoKeys) →
      TDS.findConsensusJS l = .error typeErrorMsg) := by
  constructor
  · intro hsafe
    have href := findConsensusJS_refines l hsafe
    have hinv := findConsensus_invariants l
    constructor
    · rw [href]
      simp only [Except.ok.injEq]
      exact hinv.1
    · intro r hr
      rw [href] at hr
      exact hinv.2 r (Except.ok.inj hr)
  · intro hex
    have hne : l.length ≠ 0 := by
      rcases hex with ⟨a, ha, _⟩
      cases l with
      | nil => cases ha
      | cons b rest => simp
    simp [TDS.findConsensusJS, hne,
      buildCountsJS_err (fun a => TDS.normKey a.parsed.answer) l [] (by simp) hex]

/-- C9 witness: both clauses of `claim_C9` at concrete lists — a safe
one-attempt list (invariants hold at its computed result) and a list
containing a `"constructor"` answer (the aggregation throws). -/
theorem claim_C9_witness :
    ((⟨some (mkAtt 1 "a"), 1, 1, true⟩ : ConsensusResult).agreement ≤
      (⟨some (mkAtt 1 "a"), 1, 1, true⟩ : ConsensusResult).total ∧
    (⟨some (mkAtt 1 "a"), 1, 1, true⟩ : ConsensusResult).total =
      [mkAtt 1 "a"].length ∧
    ((⟨some (mkAtt 1 "a"), 1, 1, true⟩ : ConsensusResult).isConsensus = true ↔
      ((⟨some (mkAtt 1 "a"), 1, 1, true⟩ : ConsensusResult).total + 1) / 2 ≤
        (⟨some (mkAtt 1 "a"), 1, 1, true⟩ : ConsensusResult).agreement)) ∧
    TDS.findConsensusJS [mkAtt 1 "constructor"] = .error typeErrorMsg :=
  ⟨((claim_C9 [mkAtt 1 "a"]).1 (by decide)).2 ⟨some (mkAtt 1 "a"), 1, 1, true⟩ (by rfl),
   (claim_C9 [mkAtt 1 "constructor"]).2 ⟨mkAtt 1 "constructor", by decide, by decide⟩⟩
